import Mathlib

/-!
Verification of the `v4` generational slot map from
`src/SlotMapExample/Main.cpp` (namespace `v4`, lines 110-148).

Modelling conventions (shallow embedding):

* `v4::object_id` is C++ `long long` (signed 64-bit).  All the operations on
  it in the source (`& 0xFFFFFFFF`, `>> 32`, `<< 32`, `|`) act on the two's
  complement bit pattern, so an id is modelled as the `Nat` whose binary
  representation is that 64-bit pattern: `id & 0xFFFFFFFF` becomes
  `id % 2^32`, `id >> 32` becomes `id / 2^32`, and
  `(low) | (g << 32)` with `low < 2^32` becomes `low + (g % 2^32) * 2^32`
  (the `% 2^32` reflects the 64-bit wrap of the shifted value).
* `std::vector<object*> object_table` holding chunks of 256 slots, where
  each slot is an `object` containing just the `id` field, is modelled as
  `List (List Nat)`; `std::vector<int> free_list` as `List Nat` whose head
  is the vector's back (`push_back` is cons, `back`/`pop_back` read and
  drop the head).
* `std::vector::operator[]` performs no bounds check: an out-of-range
  access is undefined behavior.  Wherever the source can perform such an
  access (or dereference a null pointer) the model returns an explicit
  marker (`GetResult.oob`, `DestroyResult.oob`, `DestroyResult.nullDeref`,
  or `none` for `create_object`) instead of a value.
* The free list stores C++ `int`; the model keeps the natural slot index.
  The two agree for every pool below `2^31` slots (8 million chunks).  The
  one theorem asserting that an operation succeeds unconditionally
  (`C5_create_grows_one_chunk`) therefore carries a `2^31` side condition;
  every other theorem only assumes as a hypothesis that an operation
  succeeded or a run completed, which restricts the states considered and
  never makes the model succeed where the source would not.
-/

set_option maxRecDepth 100000

namespace SlotMapV4

/-- `const size_t chunk_size = 256;` -/
def chunk_size : Nat := 256

/-- The global mutable state of namespace `v4`: `object_table` (each chunk
flattened to the list of its 256 slots' `id` fields) and `free_list`. -/
structure State where
  object_table : List (List Nat)
  free_list : List Nat
deriving DecidableEq, Repr

/-- Number of slots ever allocated: `object_table.size() * chunk_size`. -/
def totalSlots (s : State) : Nat := s.object_table.length * chunk_size

/-- The `id` field stored in the slot at global index `p`, i.e.
`object_table[p / chunk_size][p % chunk_size].id` (with a default of `0`
when the access would be out of range; all uses below are guarded by
range facts). -/
def slotId (s : State) (p : Nat) : Nat :=
  (s.object_table.getD (p / chunk_size) []).getD (p % chunk_size) 0

/-- The `if (free_list.empty())` block of `v4::create_object`: allocate one
chunk of `chunk_size` slots, set `chunk[i].id = object_table.size() *
chunk_size + i` and push that same index onto the free list for
`i = chunk_size-1` down to `0` (so the lowest offset ends up on top of the
stack), then append the chunk to `object_table`. -/
def grow (s : State) : State :=
  let base := s.object_table.length * chunk_size
  { object_table := s.object_table ++ [(List.range chunk_size).map (fun j => base + j)],
    free_list := (List.range chunk_size).map (fun j => base + j) ++ s.free_list }

/-- `v4::create_object`.  Grows when the free list is empty, pops the top
free index, and returns the `id` currently stored in that slot.  The
source indexes `object_table[free / chunk_size][free % chunk_size]` with
unchecked `operator[]`; an out-of-range access (impossible from a
well-formed state, see `Inv`) is modelled as `none`. -/
def create_object (s : State) : Option (Nat × State) :=
  let s' := if s.free_list.isEmpty then grow s else s
  match s'.free_list with
  | [] => none
  | free :: rest =>
    match s'.object_table[free / chunk_size]? with
    | none => none
    | some chunk =>
      match chunk[free % chunk_size]? with
      | none => none
      | some id => some (id, { object_table := s'.object_table, free_list := rest })

/-- Result of `v4::get_object`: `oob` marks the undefined behavior of an
unchecked out-of-range `object_table` access, `null` is a returned
`nullptr`, and `ref p` is a returned pointer to the slot at global index
`p` (a chunk's address plus offset identifies the slot uniquely). -/
inductive GetResult where
  | oob : GetResult
  | null : GetResult
  | ref : Nat → GetResult
deriving DecidableEq, Repr

/-- `v4::get_object`: compute the slot address
`object_table[(id & 0xFFFFFFFF) / chunk_size] + ((id & 0xFFFFFFFF) % chunk_size)`
and return it iff the stored id equals the queried id
(`obj->id != id ? nullptr : obj`). -/
def get_object (s : State) (id : Nat) : GetResult :=
  let index := id % 2 ^ 32
  match s.object_table[index / chunk_size]? with
  | none => .oob
  | some chunk =>
    match chunk[index % chunk_size]? with
    | none => .oob
    | some stored => if stored ≠ id then .null else .ref index

/-- Result of `v4::destroy_object`: `oob` propagates the unchecked
out-of-range access inside `get_object`; `nullDeref` marks the write
`obj->id = ...` through the null pointer `get_object` returns for a stale
handle (undefined behavior); `ok` carries the updated state. -/
inductive DestroyResult where
  | oob : DestroyResult
  | nullDeref : DestroyResult
  | ok : State → DestroyResult
deriving DecidableEq, Repr

/-- `v4::destroy_object`: `obj = get_object(id)`, then
`obj->id = (obj->id & 0xFFFFFFFF) | (((obj->id >> 32) + 1) << 32)` and
`free_list.push_back(id & 0xFFFFFFFF)`. -/
def destroy_object (s : State) (id : Nat) : DestroyResult :=
  match get_object s id with
  | .oob => .oob
  | .null => .nullDeref
  | .ref index =>
    let stored := slotId s index
    let newId := stored % 2 ^ 32 + ((stored / 2 ^ 32 + 1) % 2 ^ 32) * 2 ^ 32
    .ok { object_table := s.object_table.set (index / chunk_size)
            ((s.object_table.getD (index / chunk_size) []).set (index % chunk_size) newId),
          free_list := index :: s.free_list }

/-- One externally visible operation on the `v4` pool. -/
inductive Op where
  | create : Op
  | get : Nat → Op
  | destroy : Nat → Op
deriving DecidableEq, Repr

/-- Execute one operation; `none` means the source would have performed
undefined behavior (out-of-range access or null dereference). A `get`
that returns `nullptr` or a live pointer is well defined and leaves the
state unchanged. -/
def step (s : State) (op : Op) : Option State :=
  match op with
  | .create => (create_object s).map Prod.snd
  | .get id =>
    match get_object s id with
    | .oob => none
    | _ => some s
  | .destroy id =>
    match destroy_object s id with
    | .ok s' => some s'
    | _ => none

/-- Execute a list of operations left to right, stopping at undefined
behavior. -/
def run (s : State) : List Op → Option State
  | [] => some s
  | op :: ops => (step s op).bind (fun s' => run s' ops)

/-- Number of `destroy` operations in `ops` aimed at the slot with global
index `p` (i.e. whose argument has low 32 bits equal to `p`).  In a run
that completes, every such destroy succeeded. -/
def destroyCount : List Op → Nat → Nat
  | [], _ => 0
  | .destroy id :: ops, p => (if id % 2 ^ 32 = p then 1 else 0) + destroyCount ops p
  | .create :: ops, p => destroyCount ops p
  | .get _ :: ops, p => destroyCount ops p

/-- Well-formedness of a pool state, maintained by all operations from the
empty initial state: every chunk has exactly `chunk_size` slots, every
free-list entry is an allocated index, and every allocated slot stores an
id whose low 32 bits are the slot's own global index (mod `2^32`). -/
@[reducible] def Inv (s : State) : Prop :=
  (∀ c ∈ s.object_table, c.length = chunk_size) ∧
  (∀ i ∈ s.free_list, i < totalSlots s) ∧
  (∀ p, p < totalSlots s → slotId s p % 2 ^ 32 = p % 2 ^ 32)

/-- Low 32 bits of a handle: the slot index (`id & 0xFFFFFFFF`). -/
def index_of (id : Nat) : Nat := id % 2 ^ 32

/-- High 32 bits of a handle: the generation (`id >> 32`). -/
def generation_of (id : Nat) : Nat := id / 2 ^ 32

/-- Decode a handle into (index, generation), the extraction arithmetic
`get_object` and `destroy_object` perform. -/
def decode (id : Nat) : Nat × Nat := (index_of id, generation_of id)

/-- Pack (index, generation) into one 64-bit handle,
`(index & 0xFFFFFFFF) | (generation << 32)` as computed in
`destroy_object`'s id update. -/
def encode (index generation : Nat) : Nat :=
  index % 2 ^ 32 + (generation % 2 ^ 32) * 2 ^ 32

/-- The slot ids `[1, ..., 255]`: the tail of a fresh first chunk, and the
free list right after the first create. -/
def tail255 : List Nat := (List.range 255).map (· + 1)

/-- Concrete pool state reached from empty by one `create` (returning
handle `0`) followed by `g` destroy/create round trips on slot `0`: slot
`0` is occupied with generation `g % 2^32`, slots `1..255` are fresh and
free. -/
def genState (g : Nat) : State :=
  { object_table := [g % 2 ^ 32 * 2 ^ 32 :: tail255], free_list := tail255 }

/-- `genState g` right after destroying slot `0`'s occupant: generation
bumped to `(g+1) % 2^32`, index `0` back on top of the free list. -/
def midState (g : Nat) : State :=
  { object_table := [(g + 1) % 2 ^ 32 * 2 ^ 32 :: tail255], free_list := 0 :: tail255 }

/-- Destroy the current handle of slot `0` and recreate an object there. -/
def cycle (g : Nat) : List Op := [.destroy (g % 2 ^ 32 * 2 ^ 32), .create]

/-- `n` destroy/recreate cycles on slot `0`, starting at generation `a`. -/
def cyclesFrom : Nat → Nat → List Op
  | _, 0 => []
  | a, n + 1 => cycle a ++ cyclesFrom (a + 1) n

/-! ### Basic facts about slot addressing -/

theorem slotId_of_lookups {s : State} {p : Nat} {ch : List Nat} {v : Nat}
    (h1 : s.object_table[p / chunk_size]? = some ch)
    (h2 : ch[p % chunk_size]? = some v) : slotId s p = v := by
  simp [slotId, List.getD_eq_getElem?_getD, h1, h2]

theorem slotId_congr {s t : State} (h : s.object_table = t.object_table) (p : Nat) :
    slotId s p = slotId t p := by
  simp [slotId, h]

theorem totalSlots_congr {s t : State} (h : s.object_table = t.object_table) :
    totalSlots s = totalSlots t := by
  simp [totalSlots, h]

theorem div_lt_chunks {s : State} {p : Nat} (hp : p < totalSlots s) :
    p / chunk_size < s.object_table.length :=
  (Nat.div_lt_iff_lt_mul (by decide : 0 < chunk_size)).mpr hp

theorem lt_totalSlots_of_div {s : State} {p : Nat}
    (h : p / chunk_size < s.object_table.length) : p < totalSlots s := by
  simpa [totalSlots] using (Nat.div_lt_iff_lt_mul (by decide : 0 < chunk_size)).mp h

theorem addr_ne_of_ne {p q : Nat} (h : p ≠ q) :
    p / chunk_size ≠ q / chunk_size ∨ p % chunk_size ≠ q % chunk_size := by
  by_contra hc
  push_neg at hc
  exact h (by rw [← Nat.div_add_mod p chunk_size, ← Nat.div_add_mod q chunk_size, hc.1, hc.2])

/-! ### Characterizations of `get_object` -/

theorem get_object_unallocated {s : State} {id : Nat} (hp : totalSlots s ≤ id % 2 ^ 32) :
    get_object s id = .oob := by
  have hlen : s.object_table.length ≤ id % 2 ^ 32 / chunk_size := by
    rw [Nat.le_div_iff_mul_le (by decide : 0 < chunk_size)]
    simpa [totalSlots] using hp
  simp only [get_object, List.getElem?_eq_none hlen]

theorem get_object_allocated {s : State} (hInv : Inv s) {id : Nat}
    (hp : id % 2 ^ 32 < totalSlots s) :
    get_object s id =
      if slotId s (id % 2 ^ 32) = id then .ref (id % 2 ^ 32) else .null := by
  obtain ⟨hlen, -, -⟩ := hInv
  have hdiv : id % 2 ^ 32 / chunk_size < s.object_table.length := div_lt_chunks hp
  cases h1 : s.object_table[id % 2 ^ 32 / chunk_size]? with
  | none => exact absurd (List.getElem?_eq_none_iff.mp h1) (Nat.not_le.mpr hdiv)
  | some chunk =>
    have hclen : chunk.length = chunk_size := hlen chunk (List.getElem?_mem h1)
    have hoff : id % 2 ^ 32 % chunk_size < chunk.length := by
      rw [hclen]; exact Nat.mod_lt _ (by decide)
    cases h2 : chunk[id % 2 ^ 32 % chunk_size]? with
    | none => exact absurd (List.getElem?_eq_none_iff.mp h2) (Nat.not_le.mpr hoff)
    | some stored =>
      have hslot : slotId s (id % 2 ^ 32) = stored := slotId_of_lookups h1 h2
      simp only [get_object, h1, h2]
      rw [hslot]
      by_cases he : stored = id
      · simp [he]
      · simp [he]

theorem get_object_ref_inv {s : State} {id p : Nat} (h : get_object s id = .ref p) :
    p = id % 2 ^ 32 ∧ slotId s p = id ∧ p < totalSlots s ∧
      p % chunk_size < (s.object_table.getD (p / chunk_size) []).length := by
  simp only [get_object] at h
  split at h
  · cases h
  · rename_i chunk h1
    split at h
    · cases h
    · rename_i stored h2
      split at h
      · cases h
      · rename_i he
        rw [not_not] at he
        cases h
        have hdiv : id % 2 ^ 32 / chunk_size < s.object_table.length :=
          (List.getElem?_eq_some_iff.mp h1).1
        have hgd : s.object_table.getD (id % 2 ^ 32 / chunk_size) [] = chunk := by
          simp only [List.getD_eq_getElem?_getD, h1, Option.getD_some]
        refine ⟨rfl, (slotId_of_lookups h1 h2).trans he, lt_totalSlots_of_div hdiv, ?_⟩
        rw [hgd]
        exact (List.getElem?_eq_some_iff.mp h2).1

/-! ### Characterization of `destroy_object` -/

theorem destroy_object_ok_inv {s : State} {id : Nat} {s₂ : State}
    (h : destroy_object s id = .ok s₂) :
    get_object s id = .ref (id % 2 ^ 32) ∧
      s₂ = { object_table := s.object_table.set (id % 2 ^ 32 / chunk_size)
               ((s.object_table.getD (id % 2 ^ 32 / chunk_size) []).set
                 (id % 2 ^ 32 % chunk_size)
                 (id % 2 ^ 32 + (id / 2 ^ 32 + 1) % 2 ^ 32 * 2 ^ 32)),
             free_list := id % 2 ^ 32 :: s.free_list } := by
  cases hg : get_object s id with
  | oob =>
    simp only [destroy_object, hg] at h
    exact DestroyResult.noConfusion h
  | null =>
    simp only [destroy_object, hg] at h
    exact DestroyResult.noConfusion h
  | ref q =>
    simp only [destroy_object, hg] at h
    obtain ⟨hq, hslot, -, -⟩ := get_object_ref_inv hg
    subst hq
    rw [hslot] at h
    injection h with h'
    subst h'
    exact ⟨rfl, rfl⟩

theorem destroy_free_list {s : State} {id : Nat} {s₂ : State}
    (h : destroy_object s id = .ok s₂) :
    s₂.free_list = id % 2 ^ 32 :: s.free_list := by
  rw [(destroy_object_ok_inv h).2]

theorem destroy_totalSlots {s : State} {id : Nat} {s₂ : State}
    (h : destroy_object s id = .ok s₂) : totalSlots s₂ = totalSlots s := by
  rw [(destroy_object_ok_inv h).2]
  simp [totalSlots]

theorem getD_set_eq {l : List (List Nat)} {i : Nat} {ch : List Nat}
    (h : i < l.length) : (l.set i ch).getD i [] = ch := by
  simp [List.getD_eq_getElem?_getD, List.getElem?_set_self h]

theorem getD_set_eq_nat {l : List Nat} {i v : Nat}
    (h : i < l.length) : (l.set i v).getD i 0 = v := by
  simp [List.getD_eq_getElem?_getD, List.getElem?_set_self h]

theorem getD_set_ne {l : List (List Nat)} {i j : Nat} {ch : List Nat}
    (h : i ≠ j) : (l.set i ch).getD j [] = l.getD j [] := by
  simp [List.getD_eq_getElem?_getD, List.getElem?_set_ne h]

theorem getD_set_ne_nat {l : List Nat} {i j v : Nat}
    (h : i ≠ j) : (l.set i v).getD j 0 = l.getD j 0 := by
  simp [List.getD_eq_getElem?_getD, List.getElem?_set_ne h]

theorem destroy_slotId_target {s : State} {id : Nat} {s₂ : State}
    (h : destroy_object s id = .ok s₂) :
    slotId s (id % 2 ^ 32) = id ∧
      slotId s₂ (id % 2 ^ 32) = id % 2 ^ 32 + (id / 2 ^ 32 + 1) % 2 ^ 32 * 2 ^ 32 := by
  obtain ⟨hg, hs⟩ := destroy_object_ok_inv h
  obtain ⟨-, hslot, hlt, hoff⟩ := get_object_ref_inv hg
  refine ⟨hslot, ?_⟩
  subst hs
  have hdiv : id % 2 ^ 32 / chunk_size < s.object_table.length := div_lt_chunks hlt
  simp only [slotId]
  rw [getD_set_eq hdiv, getD_set_eq_nat hoff]

theorem destroy_slotId_ne {s : State} {id : Nat} {s₂ : State}
    (h : destroy_object s id = .ok s₂) {p : Nat} (hne : p ≠ id % 2 ^ 32) :
    slotId s₂ p = slotId s p := by
  obtain ⟨hg, hs⟩ := destroy_object_ok_inv h
  obtain ⟨-, -, hlt, hoff⟩ := get_object_ref_inv hg
  subst hs
  rcases addr_ne_of_ne hne with hd | hm
  · simp only [slotId]
    rw [getD_set_ne (Ne.symm hd)]
  · by_cases hd : p / chunk_size = id % 2 ^ 32 / chunk_size
    · have hdiv : id % 2 ^ 32 / chunk_size < s.object_table.length := div_lt_chunks hlt
      simp only [slotId, hd]
      rw [getD_set_eq hdiv, getD_set_ne_nat (Ne.symm hm)]
    · simp only [slotId]
      rw [getD_set_ne (Ne.symm hd)]

/-! ### Facts about `grow` and `create_object` -/

theorem totalSlots_grow (s : State) : totalSlots (grow s) = totalSlots s + chunk_size := by
  simp [totalSlots, grow, Nat.succ_mul]

theorem slotId_grow_old {s : State} {p : Nat} (hp : p < totalSlots s) :
    slotId (grow s) p = slotId s p := by
  have hdiv := div_lt_chunks hp
  simp only [slotId, grow, List.getD_eq_getElem?_getD, List.getElem?_append_left hdiv]

theorem slotId_grow_new (s : State) {j : Nat} (hj : j < chunk_size) :
    slotId (grow s) (totalSlots s + j) = totalSlots s + j := by
  have hdiv : (totalSlots s + j) / chunk_size = s.object_table.length := by
    simp only [totalSlots]
    rw [Nat.mul_comm, Nat.mul_add_div (by decide : 0 < chunk_size), Nat.div_eq_of_lt hj,
      Nat.add_zero]
  have hmod : (totalSlots s + j) % chunk_size = j := by
    simp only [totalSlots]
    rw [Nat.mul_comm, Nat.mul_add_mod, Nat.mod_eq_of_lt hj]
  simp only [slotId, grow, hdiv, hmod, List.getD_eq_getElem?_getD]
  rw [List.getElem?_append_right (Nat.le_refl _), Nat.sub_self]
  simp [List.getElem?_range hj, totalSlots]

theorem grow_free_list (s : State) :
    (grow s).free_list =
      (List.range chunk_size).map (fun j => totalSlots s + j) ++ s.free_list := rfl

theorem create_object_some_inv {s : State} {i : Nat} {s₂ : State}
    (h : create_object s = some (i, s₂)) :
    ∃ f rest,
      (if s.free_list.isEmpty then grow s else s).free_list = f :: rest ∧
      slotId (if s.free_list.isEmpty then grow s else s) f = i ∧
      f / chunk_size < (if s.free_list.isEmpty then grow s else s).object_table.length ∧
      s₂.object_table = (if s.free_list.isEmpty then grow s else s).object_table ∧
      s₂.free_list = rest := by
  simp only [create_object] at h
  split at h
  · exact Option.noConfusion h
  · rename_i f rest hfl
    split at h
    · exact Option.noConfusion h
    · rename_i chunk h1
      split at h
      · exact Option.noConfusion h
      · rename_i v h2
        rw [Option.some.injEq, Prod.mk.injEq] at h
        obtain ⟨hi, hs⟩ := h
        refine ⟨f, rest, hfl, ?_, (List.getElem?_eq_some_iff.mp h1).1, ?_, ?_⟩
        · rw [← hi]
          exact slotId_of_lookups h1 h2
        · rw [← hs]
        · rw [← hs]

theorem create_slotId_frame {s : State} {i : Nat} {s₂ : State}
    (h : create_object s = some (i, s₂)) {p : Nat} (hp : p < totalSlots s) :
    slotId s₂ p = slotId s p := by
  obtain ⟨f, rest, -, -, -, hto, -⟩ := create_object_some_inv h
  rw [slotId_congr hto p]
  split
  · exact slotId_grow_old hp
  · rfl

theorem create_totalSlots {s : State} {i : Nat} {s₂ : State}
    (h : create_object s = some (i, s₂)) :
    totalSlots s ≤ totalSlots s₂ := by
  obtain ⟨f, rest, -, -, -, hto, -⟩ := create_object_some_inv h
  rw [totalSlots_congr hto]
  split
  · rw [totalSlots_grow]; omega
  · exact Nat.le_refl _

/-! ### Preservation of the invariant -/

theorem inv_grow {s : State} (hInv : Inv s) : Inv (grow s) := by
  obtain ⟨h1, h2, h3⟩ := hInv
  refine ⟨?_, ?_, ?_⟩
  · intro ch hc
    simp only [grow, List.mem_append, List.mem_singleton] at hc
    rcases hc with hc | rfl
    · exact h1 ch hc
    · simp [chunk_size]
  · intro j hj
    rw [grow_free_list] at hj
    rw [totalSlots_grow]
    rcases List.mem_append.mp hj with hj | hj
    · simp only [List.mem_map, List.mem_range] at hj
      obtain ⟨k, hk, rfl⟩ := hj
      omega
    · have := h2 j hj; omega
  · intro p hp
    rw [totalSlots_grow] at hp
    by_cases hlt : p < totalSlots s
    · rw [slotId_grow_old hlt]; exact h3 p hlt
    · have hp' : p = totalSlots s + (p - totalSlots s) := by omega
      rw [hp', slotId_grow_new s (by omega)]

theorem inv_create {s : State} (hInv : Inv s) {i : Nat} {s₂ : State}
    (h : create_object s = some (i, s₂)) : Inv s₂ := by
  obtain ⟨f, rest, hfl, -, -, hto, hfr⟩ := create_object_some_inv h
  have hInv₁ : Inv (if s.free_list.isEmpty then grow s else s) := by
    split
    · exact inv_grow hInv
    · exact hInv
  obtain ⟨h1, h2, h3⟩ := hInv₁
  refine ⟨?_, ?_, ?_⟩
  · rw [hto]; exact h1
  · intro j hj
    rw [hfr] at hj
    rw [totalSlots_congr hto]
    exact h2 j (hfl ▸ List.mem_cons_of_mem f hj)
  · intro p hp
    rw [slotId_congr hto p]
    rw [totalSlots_congr hto] at hp
    exact h3 p hp

theorem inv_destroy {s : State} (hInv : Inv s) {id : Nat} {s₂ : State}
    (h : destroy_object s id = .ok s₂) : Inv s₂ := by
  obtain ⟨hg, hs⟩ := destroy_object_ok_inv h
  obtain ⟨-, -, hlt, hoff⟩ := get_object_ref_inv hg
  obtain ⟨h1, h2, h3⟩ := hInv
  have hdiv : id % 2 ^ 32 / chunk_size < s.object_table.length := div_lt_chunks hlt
  have htot : totalSlots s₂ = totalSlots s := destroy_totalSlots h
  have htarget := destroy_slotId_target h
  refine ⟨?_, ?_, ?_⟩
  · intro ch hc
    rw [hs] at hc
    rcases List.mem_or_eq_of_mem_set hc with hc | rfl
    · exact h1 ch hc
    · rw [List.length_set]
      cases hq : s.object_table[id % 2 ^ 32 / chunk_size]? with
      | none => exact absurd (List.getElem?_eq_none_iff.mp hq) (Nat.not_le.mpr hdiv)
      | some chunk =>
        have hgd : s.object_table.getD (id % 2 ^ 32 / chunk_size) [] = chunk := by
          simp only [List.getD_eq_getElem?_getD, hq, Option.getD_some]
        rw [hgd]
        exact h1 chunk (List.getElem?_mem hq)
  · intro j hj
    rw [destroy_free_list h] at hj
    rw [htot]
    rcases List.mem_cons.mp hj with rfl | hj
    · exact hlt
    · exact h2 j hj
  · intro p hp
    rw [htot] at hp
    by_cases hpq : p = id % 2 ^ 32
    · subst hpq
      rw [htarget.2]
      simp [Nat.add_mul_mod_self_right]
    · rw [destroy_slotId_ne h hpq]
      exact h3 p hp

theorem inv_init : Inv { object_table := [], free_list := [] } := by
  refine ⟨?_, ?_, ?_⟩ <;> simp [totalSlots]

/-! ### Facts about `step` and `run` -/

theorem step_get_state {s : State} {id : Nat} {s₂ : State}
    (h : step s (.get id) = some s₂) : s₂ = s := by
  simp only [step] at h
  split at h
  · exact Option.noConfusion h
  · injection h with h'
    exact h'.symm

theorem step_create_inv {s : State} {s₂ : State} (h : step s .create = some s₂) :
    ∃ i, create_object s = some (i, s₂) := by
  simp only [step, Option.map_eq_some'] at h
  obtain ⟨⟨i, t⟩, hc, ht⟩ := h
  exact ⟨i, ht ▸ hc⟩

theorem step_destroy_inv {s : State} {id : Nat} {s₂ : State}
    (h : step s (.destroy id) = some s₂) : destroy_object s id = .ok s₂ := by
  simp only [step] at h
  split at h
  · rename_i t heq
    injection h with h'
    rw [heq, h']
  · exact Option.noConfusion h

theorem totalSlots_step {s : State} {op : Op} {s₂ : State}
    (h : step s op = some s₂) : totalSlots s ≤ totalSlots s₂ := by
  cases op with
  | create =>
    obtain ⟨i, hc⟩ := step_create_inv h
    exact create_totalSlots hc
  | get id => exact le_of_eq (by rw [step_get_state h])
  | destroy id => exact le_of_eq (destroy_totalSlots (step_destroy_inv h)).symm

theorem inv_step {s : State} {op : Op} {s₂ : State} (hInv : Inv s)
    (h : step s op = some s₂) : Inv s₂ := by
  cases op with
  | create =>
    obtain ⟨i, hc⟩ := step_create_inv h
    exact inv_create hInv hc
  | get id => rw [step_get_state h]; exact hInv
  | destroy id => exact inv_destroy hInv (step_destroy_inv h)

theorem inv_run {s : State} {ops : List Op} {s₂ : State} (hInv : Inv s)
    (h : run s ops = some s₂) : Inv s₂ := by
  induction ops generalizing s with
  | nil =>
    simp only [run] at h
    injection h with h'
    exact h' ▸ hInv
  | cons op ops ih =>
    simp only [run] at h
    obtain ⟨s₁, h1, h2⟩ := Option.bind_eq_some.mp h
    exact ih (inv_step hInv h1) h2

theorem totalSlots_run {s : State} {ops : List Op} {s₂ : State}
    (h : run s ops = some s₂) : totalSlots s ≤ totalSlots s₂ := by
  induction ops generalizing s with
  | nil =>
    simp only [run] at h
    injection h with h'
    exact le_of_eq (by rw [h'])
  | cons op ops ih =>
    simp only [run] at h
    obtain ⟨s₁, h1, h2⟩ := Option.bind_eq_some.mp h
    exact le_trans (totalSlots_step h1) (ih h2)

theorem run_nil (s : State) : run s [] = some s := rfl

theorem run_cons (s : State) (op : Op) (ops : List Op) :
    run s (op :: ops) = (step s op).bind (fun t => run t ops) := rfl

theorem run_append (s : State) (l₁ l₂ : List Op) :
    run s (l₁ ++ l₂) = (run s l₁).bind (fun t => run t l₂) := by
  induction l₁ generalizing s with
  | nil => simp [run]
  | cons op l ih =>
    simp only [List.cons_append, run]
    cases step s op with
    | none => simp
    | some t => simp [ih t]

/-! ### Evolution of a slot's stored id along a run -/

theorem slot_evolution (ops : List Op) : ∀ (s s₂ : State) (p G : Nat),
    run s ops = some s₂ → p < 2 ^ 32 → p < totalSlots s →
    slotId s p = p + G * 2 ^ 32 → G < 2 ^ 32 →
    slotId s₂ p = p + (G + destroyCount ops p) % 2 ^ 32 * 2 ^ 32 := by
  induction ops with
  | nil =>
    intro s s₂ p G hrun hp hlt hslot hG
    simp only [run] at hrun
    injection hrun with h'
    subst h'
    have hz : destroyCount [] p = 0 := rfl
    rw [hz, Nat.add_zero, Nat.mod_eq_of_lt hG]
    exact hslot
  | cons op ops ih =>
    intro s s₂ p G hrun hp hlt hslot hG
    simp only [run] at hrun
    obtain ⟨s₁, h1, h2⟩ := Option.bind_eq_some.mp hrun
    cases op with
    | create =>
      obtain ⟨i, hc⟩ := step_create_inv h1
      have hcount : destroyCount (Op.create :: ops) p = destroyCount ops p := rfl
      rw [hcount]
      exact ih s₁ s₂ p G h2 hp (lt_of_lt_of_le hlt (create_totalSlots hc))
        ((create_slotId_frame hc hlt).trans hslot) hG
    | get id =>
      have hst := step_get_state h1
      subst hst
      have hcount : destroyCount (Op.get id :: ops) p = destroyCount ops p := rfl
      rw [hcount]
      exact ih s₁ s₂ p G h2 hp hlt hslot hG
    | destroy id =>
      have hd := step_destroy_inv h1
      have hlt₁ : p < totalSlots s₁ := by
        rw [destroy_totalSlots hd]; exact hlt
      by_cases hpq : id % 2 ^ 32 = p
      · have htar := destroy_slotId_target hd
        have hid : id = p + G * 2 ^ 32 := by
          rw [← hslot, ← hpq, htar.1]
        have hiddiv : id / 2 ^ 32 = G := by
          rw [hid, Nat.add_mul_div_right _ _ (by norm_num : 0 < 2 ^ 32),
            Nat.div_eq_of_lt hp, Nat.zero_add]
        have hnew : slotId s₁ p = p + (G + 1) % 2 ^ 32 * 2 ^ 32 := by
          have h' := htar.2
          rw [hpq, hiddiv] at h'
          exact h'
        have happ := ih s₁ s₂ p ((G + 1) % 2 ^ 32) h2 hp hlt₁ hnew
          (Nat.mod_lt _ (by norm_num))
        have hcount : destroyCount (Op.destroy id :: ops) p = 1 + destroyCount ops p := by
          simp only [destroyCount, if_pos hpq]
        rw [hcount, happ, Nat.mod_add_mod, Nat.add_assoc]
      · have hcount : destroyCount (Op.destroy id :: ops) p = destroyCount ops p := by
          simp only [destroyCount, if_neg hpq, Nat.zero_add]
        rw [hcount]
        exact ih s₁ s₂ p G h2 hp hlt₁
          ((destroy_slotId_ne hd (fun hh => hpq hh.symm)).trans hslot) hG

/-! ### Closed forms for destroy/create cycles on slot 0 -/

theorem get_genState (g : Nat) :
    get_object (genState g) (g % 2 ^ 32 * 2 ^ 32) = .ref 0 := by
  have hidx : g % 2 ^ 32 * 2 ^ 32 % 2 ^ 32 = 0 := Nat.mul_mod_left _ _
  simp [get_object, genState, hidx, chunk_size]

theorem destroy_genState (g : Nat) :
    destroy_object (genState g) (g % 2 ^ 32 * 2 ^ 32) = .ok (midState g) := by
  have hidx : g % 2 ^ 32 * 2 ^ 32 % 2 ^ 32 = 0 := Nat.mul_mod_left _ _
  have hslot : slotId (genState g) 0 = g % 2 ^ 32 * 2 ^ 32 := by
    simp [slotId, genState, chunk_size]
  simp only [destroy_object, get_genState g, hslot, hidx]
  have hdvd : g % 2 ^ 32 * 2 ^ 32 / 2 ^ 32 = g % 2 ^ 32 :=
    Nat.mul_div_cancel _ (by norm_num)
  rw [hdvd]
  have hmod : (g % 2 ^ 32 + 1) % 2 ^ 32 = (g + 1) % 2 ^ 32 := by
    rw [Nat.mod_add_mod]
  rw [hmod]
  simp [genState, midState, chunk_size]

theorem create_midState (g : Nat) :
    create_object (midState g) = some ((g + 1) % 2 ^ 32 * 2 ^ 32, genState (g + 1)) := by
  simp [create_object, midState, genState, chunk_size]

theorem run_cycle (g : Nat) :
    run (genState g) (cycle g) = some (genState (g + 1)) := by
  simp only [cycle, run, step, destroy_genState g, create_midState g, Option.some_bind,
    Option.map_some']

theorem run_cyclesFrom (n : Nat) : ∀ a, run (genState a) (cyclesFrom a n) =
    some (genState (a + n)) := by
  induction n with
  | zero =>
    intro a
    simp [cyclesFrom, run]
  | succ n ih =>
    intro a
    show run (genState a) (cycle a ++ cyclesFrom (a + 1) n) = _
    rw [run_append, run_cycle a, Option.some_bind, ih (a + 1)]
    congr 2
    omega

/-! ### Claim theorems -/

/-- C7: for every index and generation within the configured 32-bit widths,
`decode (encode index generation) = (index, generation)`: packing the index
into the low 32 bits and the generation into the high 32 bits of the 64-bit
handle and extracting them again recovers exactly the original pair; both
functions are pure and total by construction. -/
theorem C7_encode_decode_roundtrip (index generation : Nat)
    (hi : index < 2 ^ 32) (hg : generation < 2 ^ 32) :
    decode (encode index generation) = (index, generation) := by
  simp only [decode, encode, index_of, generation_of, Nat.mod_eq_of_lt hi,
    Nat.mod_eq_of_lt hg]
  rw [Nat.add_mul_mod_self_right, Nat.mod_eq_of_lt hi,
    Nat.add_mul_div_right _ _ (by norm_num : 0 < 2 ^ 32), Nat.div_eq_of_lt hi,
    Nat.zero_add]

/-- Witness for C7 at the concrete pair (7, 5). -/
theorem C7_encode_decode_roundtrip_witness : decode (encode 7 5) = (7, 5) :=
  C7_encode_decode_roundtrip 7 5 (by norm_num) (by norm_num)

/-- C10: `get` is read-only and deterministic: executing a `get` operation
leaves the state exactly as it was (whenever it is defined at all), a second
call to `get_object` on the resulting state with the same handle returns the
same result, and the result does not depend on the free list — `get_object`
reads only the chunk table. -/
theorem C10_get_read_only :
    (∀ (s : State) (id : Nat) (s₂ : State), step s (.get id) = some s₂ →
      s₂ = s ∧ get_object s₂ id = get_object s id) ∧
    (∀ (t : List (List Nat)) (fl fl' : List Nat) (id : Nat),
      get_object { object_table := t, free_list := fl } id =
        get_object { object_table := t, free_list := fl' } id) := by
  constructor
  · intro s id s₂ hstep
    have hs := step_get_state hstep
    exact ⟨hs, by rw [hs]⟩
  · intro t fl fl' id
    rfl

/-- Witness for C10 on a concrete one-chunk pool. -/
theorem C10_get_read_only_witness :
    genState 0 = genState 0 ∧ get_object (genState 0) 0 = get_object (genState 0) 0 :=
  C10_get_read_only.1 (genState 0) 0 (genState 0) (by decide)

/-- C4 counterexample: on the empty pool index `0` was never allocated, yet
`get` does not fail with a reported `IndexOutOfRange`: the source indexes
`object_table` with unchecked `operator[]`, so the call performs an
out-of-range vector access — undefined behavior (modelled as `.oob`) —
refuting the claim that `get` is in every case a total check that never
crashes or invokes undefined behavior. -/
theorem C4_counterexample :
    get_object { object_table := [], free_list := [] } 0 = .oob := by decide

/-- C4 (amended): for a handle whose decoded index was allocated, `get` is a
total check under the pool invariant: it returns a live reference iff the
stored id — equivalently, under the invariant, the stored generation —
matches the handle, and "not found" otherwise, never touching memory out of
range; but for a never-allocated index it performs an out-of-bounds
chunk-table access (undefined behavior) instead of failing with a reported
`IndexOutOfRange`. -/
theorem C4_get_total_on_allocated (s : State) (id : Nat) (hInv : Inv s) :
    (id % 2 ^ 32 < totalSlots s →
      get_object s id =
        (if slotId s (id % 2 ^ 32) = id then .ref (id % 2 ^ 32) else .null) ∧
      (slotId s (id % 2 ^ 32) = id ↔
        generation_of (slotId s (id % 2 ^ 32)) = generation_of id)) ∧
    (totalSlots s ≤ id % 2 ^ 32 → get_object s id = .oob) := by
  constructor
  · intro hp
    refine ⟨get_object_allocated hInv hp, ?_⟩
    have hlow := hInv.2.2 (id % 2 ^ 32) hp
    simp only [generation_of]
    omega
  · exact get_object_unallocated

/-- Witness for C4 (amended) on a concrete one-chunk pool with a live
handle. -/
theorem C4_get_total_on_allocated_witness :
    get_object (genState 0) 0 =
      (if slotId (genState 0) (0 % 2 ^ 32) = 0 then .ref (0 % 2 ^ 32) else .null) :=
  ((C4_get_total_on_allocated (genState 0) 0 (by decide)).1 (by decide)).1

/-- C1: the claim (and the spec) say destroying a stale handle is a no-op
reported as `NotFound`; in the source, `destroy_object` unconditionally
writes through the pointer returned by `get_object`, which is null for a
stale handle.  Concretely: create an object (handle `0`), destroy it
(successfully), then call destroy on the same handle again — the second
call dereferences a null pointer (undefined behavior, modelled as
`.nullDeref`); no `NotFound` result exists anywhere in the code
(`destroy_object` returns `void`). -/
theorem C1_destroy_stale_is_null_deref :
    create_object { object_table := [], free_list := [] } = some (0, genState 0) ∧
    destroy_object (genState 0) 0 = .ok (midState 0) ∧
    destroy_object (midState 0) 0 = .nullDeref := by
  refine ⟨by decide, by decide, by decide⟩

/-- C5: from a state with an empty free list, `create` succeeds, appending
exactly one chunk of `chunk_size` fresh slots each holding generation 0,
leaving every existing slot untouched, making the new indices reusable
lowest-offset-first (the resulting free list is `base+1, ..., base+255`
after the pop), popping the new chunk's lowest index `base = totalSlots s`,
and returning the handle that encodes that index with the slot's current
generation 0.  The side condition keeps the pool below `2^31` slots: that
is the regime in which the model's natural-number free list represents the
source's `std::vector<int>` exactly (beyond it the source's pushed indices
truncate and the subsequent chunk access is out of range). -/
theorem C5_create_grows_one_chunk (s : State) (hfl : s.free_list = [])
    (hw : totalSlots s + chunk_size ≤ 2 ^ 31) :
    create_object s = some (totalSlots s,
      { object_table := s.object_table ++
          [(List.range chunk_size).map (fun j => totalSlots s + j)],
        free_list := tail255.map (fun j => totalSlots s + j) }) ∧
    (∀ j, j < chunk_size → generation_of (slotId (grow s) (totalSlots s + j)) = 0) ∧
    (∀ p, p < totalSlots s → slotId (grow s) p = slotId s p) ∧
    decode (totalSlots s) = (totalSlots s, 0) := by
  have hr : List.range chunk_size = 0 :: tail255 := by decide
  have hbase : totalSlots s < 2 ^ 32 := by
    have hcs : 0 < chunk_size := by decide
    omega
  refine ⟨?_, ?_, ?_, ?_⟩
  · have hflg : (grow s).free_list
        = totalSlots s :: tail255.map (fun j => totalSlots s + j) := by
      rw [grow_free_list, hfl, List.append_nil, hr, List.map_cons, Nat.add_zero]
    have hdiv0 : totalSlots s / chunk_size = s.object_table.length := by
      simp only [totalSlots, chunk_size]
      omega
    have hmod0 : totalSlots s % chunk_size = 0 := by
      simp only [totalSlots, chunk_size]
      omega
    have hlook : (grow s).object_table[totalSlots s / chunk_size]? =
        some ((List.range chunk_size).map (fun j => totalSlots s + j)) := by
      rw [hdiv0]
      show (s.object_table ++ [(List.range chunk_size).map (fun j => totalSlots s + j)])[
        s.object_table.length]? = _
      rw [List.getElem?_append_right (Nat.le_refl _), Nat.sub_self]
      rfl
    have hlook2 : ((List.range chunk_size).map
        (fun j => totalSlots s + j))[totalSlots s % chunk_size]? =
        some (totalSlots s) := by
      rw [hmod0, hr, List.map_cons]
      simp
    simp only [create_object, hfl, List.isEmpty_nil, if_true, hflg, hlook, hlook2]
    rfl
  · intro j hj
    rw [slotId_grow_new s hj]
    simp only [generation_of]
    have hcs : chunk_size = 256 := rfl
    omega
  · intro p hp
    exact slotId_grow_old hp
  · simp only [decode, index_of, generation_of]
    rw [Nat.mod_eq_of_lt hbase, Nat.div_eq_of_lt hbase]

/-- Witness for C5 on the empty pool. -/
theorem C5_create_grows_one_chunk_witness :
    create_object { object_table := [], free_list := [] } =
      some (0, { object_table := [(List.range chunk_size).map (fun j => 0 + j)],
                 free_list := tail255.map (fun j => 0 + j) }) :=
  (C5_create_grows_one_chunk { object_table := [], free_list := [] } rfl (by decide)).1

/-- C6: a slot's generation starts at 0 for a never-used slot (fresh chunk,
within the configured 32-bit index width), is left unchanged by `create`
(for every already-allocated slot) and by `get` (which does not change the
state at all), and is incremented by exactly 1 — modulo `2^32`, wraparound
being the sole exception — each time the slot's occupant is destroyed,
while a destroy touches no other slot; consequently, along any completed
run an allocated slot's generation advances by exactly the number of
destroys aimed at it, i.e. it is monotonically non-decreasing until it
wraps. -/
theorem C6_generation_monotone :
    (∀ (s : State) (j : Nat), j < chunk_size → totalSlots s + chunk_size ≤ 2 ^ 32 →
      generation_of (slotId (grow s) (totalSlots s + j)) = 0) ∧
    (∀ (s : State) (i : Nat) (s₂ : State), create_object s = some (i, s₂) →
      ∀ p, p < totalSlots s → slotId s₂ p = slotId s p) ∧
    (∀ (s : State) (id : Nat) (s₂ : State), step s (.get id) = some s₂ → s₂ = s) ∧
    (∀ (s : State) (id : Nat) (s₂ : State), destroy_object s id = .ok s₂ →
      generation_of (slotId s₂ (id % 2 ^ 32)) =
        (generation_of (slotId s (id % 2 ^ 32)) + 1) % 2 ^ 32 ∧
      ∀ p, p ≠ id % 2 ^ 32 → slotId s₂ p = slotId s p) ∧
    (∀ (ops : List Op) (s s₂ : State) (p G : Nat),
      run s ops = some s₂ → p < 2 ^ 32 → p < totalSlots s →
      slotId s p = p + G * 2 ^ 32 → G < 2 ^ 32 →
      generation_of (slotId s₂ p) = (G + destroyCount ops p) % 2 ^ 32) := by
  refine ⟨?_, ?_, ?_, ?_, ?_⟩
  · intro s j hj hw
    rw [slotId_grow_new s hj]
    simp only [generation_of]
    have hcs : chunk_size = 256 := rfl
    omega
  · intro s i s₂ hc p hp
    exact create_slotId_frame hc hp
  · intro s id s₂ hstep
    exact step_get_state hstep
  · intro s id s₂ hd
    have htar := destroy_slotId_target hd
    constructor
    · rw [htar.1, htar.2]
      simp only [generation_of]
      rw [Nat.add_mul_div_right _ _ (by norm_num : 0 < 2 ^ 32),
        Nat.div_eq_of_lt (Nat.mod_lt _ (by norm_num)), Nat.zero_add]
    · intro p hp
      exact destroy_slotId_ne hd hp
  · intro ops s s₂ p G hrun hp hlt hslot hG
    rw [slot_evolution ops s s₂ p G hrun hp hlt hslot hG]
    simp only [generation_of]
    rw [Nat.add_mul_div_right _ _ (by norm_num : 0 < 2 ^ 32),
      Nat.div_eq_of_lt hp, Nat.zero_add]

/-- Witness for C6: fresh slot 0 of the first chunk of the empty pool has
generation 0. -/
theorem C6_generation_monotone_witness :
    generation_of (slotId (grow { object_table := [], free_list := [] })
      (totalSlots { object_table := [], free_list := [] } + 0)) = 0 :=
  C6_generation_monotone.1 { object_table := [], free_list := [] } 0
    (by decide) (by decide)

/-- C2: for every handle on which `destroy` succeeds, every subsequent
`get` with that handle returns "not found" (null), across any completed
(undefined-behavior-free) sequence of later create/get/destroy operations,
including after the slot has been reused — provided the slot's generation
counter does not wrap, i.e. fewer than `2^32 - 1` further destroys hit
that slot. -/
theorem C2_destroyed_handle_stays_dead (s : State) (h : Nat) (s₁ : State)
    (ops : List Op) (s₂ : State)
    (hInv : Inv s)
    (hd : destroy_object s h = .ok s₁)
    (hrun : run s₁ ops = some s₂)
    (hwrap : destroyCount ops (h % 2 ^ 32) < 2 ^ 32 - 1) :
    get_object s₂ h = .null := by
  obtain ⟨hg, -⟩ := destroy_object_ok_inv hd
  obtain ⟨-, hslot, hlt, -⟩ := get_object_ref_inv hg
  have hInv₂ : Inv s₂ := inv_run (inv_destroy hInv hd) hrun
  have hlt₁ : h % 2 ^ 32 < totalSlots s₁ := by
    rw [destroy_totalSlots hd]; exact hlt
  have hp32 : h % 2 ^ 32 < 2 ^ 32 := Nat.mod_lt _ (by norm_num)
  have htar := destroy_slotId_target hd
  have hev := slot_evolution ops s₁ s₂ (h % 2 ^ 32) ((h / 2 ^ 32 + 1) % 2 ^ 32) hrun
    hp32 hlt₁ htar.2 (Nat.mod_lt _ (by norm_num))
  have hlt₂ : h % 2 ^ 32 < totalSlots s₂ := lt_of_lt_of_le hlt₁ (totalSlots_run hrun)
  have hne : slotId s₂ (h % 2 ^ 32) ≠ h := by
    rw [hev]
    omega
  rw [get_object_allocated hInv₂ hlt₂, if_neg hne]

/-- Witness for C2: destroy handle 0 in the one-chunk pool, let a later
create reuse the slot, then `get 0` is null. -/
theorem C2_destroyed_handle_stays_dead_witness :
    get_object (genState 1) 0 = .null :=
  C2_destroyed_handle_stays_dead (genState 0) 0 (midState 0) [Op.create] (genState 1)
    (by decide) (by decide) (by decide) (by decide)

/-- C3 counterexample: generation wraparound refutes the unqualified claim.
Starting from the empty pool, `create` returns handle `0`; destroying it
succeeds and frees slot `0` (index `0` goes on top of the free list); after
`2^32 - 1` further destroy/recreate cycles on that slot, a later `create`
pops slot `0` again and returns handle `0` — equal to the original handle,
and `get` on the supposedly dead original handle returns a live reference,
so `h1 != h2` and `get(h1) = not found` both fail on this run. -/
theorem C3_counterexample :
    create_object { object_table := [], free_list := [] } = some (0, genState 0) ∧
    destroy_object (genState 0) 0 = .ok (midState 0) ∧
    (midState 0).free_list = 0 :: tail255 ∧
    run (midState 0) (Op.create :: (cyclesFrom 1 (2 ^ 32 - 2) ++
      [Op.destroy ((2 ^ 32 - 1) % 2 ^ 32 * 2 ^ 32)])) = some (midState (2 ^ 32 - 1)) ∧
    create_object (midState (2 ^ 32 - 1)) = some (0, genState (2 ^ 32)) ∧
    get_object (genState (2 ^ 32)) 0 = .ref 0 := by
  refine ⟨by decide, by decide, rfl, ?_, ?_, ?_⟩
  · rw [run_cons]
    have hs1 : step (midState 0) Op.create = some (genState 1) := by
      simp only [step, create_midState 0, Option.map_some']
    rw [hs1, Option.some_bind, run_append, run_cyclesFrom (2 ^ 32 - 2) 1]
    have he : (1 + (2 ^ 32 - 2) : Nat) = 2 ^ 32 - 1 := by norm_num
    rw [he, Option.some_bind, run_cons]
    have hs2 : step (genState (2 ^ 32 - 1))
        (Op.destroy ((2 ^ 32 - 1) % 2 ^ 32 * 2 ^ 32)) =
        some (midState (2 ^ 32 - 1)) := by
      simp only [step, destroy_genState (2 ^ 32 - 1)]
    rw [hs2, Option.some_bind, run_nil]
  · have he : (2 ^ 32 - 1 + 1 : Nat) = 2 ^ 32 := by norm_num
    have hcm := create_midState (2 ^ 32 - 1)
    rw [he] at hcm
    rw [hcm]
    norm_num
  · have hg0 : genState (2 ^ 32) = genState 0 := by simp [genState]
    rw [hg0]
    decide

/-- C3 (amended): if `destroy h₁` succeeds and frees slot `i`, and a later
`create` reuses slot `i` returning `h₂`, then `h₁ ≠ h₂`, `get h₁` is
"not found" and `get h₂` is a live reference to slot `i` — provided the
pool stays within the configured 32-bit index width and slot `i`'s
generation counter has not wrapped in between (fewer than `2^32 - 1`
intervening destroys of slot `i`), the proviso the wraparound
counterexample forces. -/
theorem C3_reuse_distinguishable (s : State) (h₁ : Nat) (s₁ : State) (ops : List Op)
    (s₂ : State) (h₂ : Nat) (s₃ : State)
    (hInv : Inv s)
    (hd : destroy_object s h₁ = .ok s₁)
    (hrun : run s₁ ops = some s₂)
    (hc : create_object s₂ = some (h₂, s₃))
    (hreuse : h₂ % 2 ^ 32 = h₁ % 2 ^ 32)
    (hw : totalSlots s₂ + chunk_size ≤ 2 ^ 32)
    (hwrap : destroyCount ops (h₁ % 2 ^ 32) < 2 ^ 32 - 1) :
    h₁ ≠ h₂ ∧ get_object s₃ h₁ = .null ∧ get_object s₃ h₂ = .ref (h₁ % 2 ^ 32) := by
  obtain ⟨hg, -⟩ := destroy_object_ok_inv hd
  obtain ⟨-, hslot₀, hlt, -⟩ := get_object_ref_inv hg
  have hInv₂ : Inv s₂ := inv_run (inv_destroy hInv hd) hrun
  have hInv₃ : Inv s₃ := inv_create hInv₂ hc
  have hp32 : h₁ % 2 ^ 32 < 2 ^ 32 := Nat.mod_lt _ (by norm_num)
  have hlt₁ : h₁ % 2 ^ 32 < totalSlots s₁ := by
    rw [destroy_totalSlots hd]; exact hlt
  have hlt₂ : h₁ % 2 ^ 32 < totalSlots s₂ := lt_of_lt_of_le hlt₁ (totalSlots_run hrun)
  have htar := destroy_slotId_target hd
  have hev := slot_evolution ops s₁ s₂ (h₁ % 2 ^ 32) ((h₁ / 2 ^ 32 + 1) % 2 ^ 32) hrun
    hp32 hlt₁ htar.2 (Nat.mod_lt _ (by norm_num))
  obtain ⟨f, rest, hfl, hsl, hfd, hto, hfr⟩ := create_object_some_inv hc
  have hInvG : Inv (if s₂.free_list.isEmpty then grow s₂ else s₂) := by
    split
    · exact inv_grow hInv₂
    · exact hInv₂
  have hflt : f < totalSlots (if s₂.free_list.isEmpty then grow s₂ else s₂) :=
    lt_totalSlots_of_div hfd
  have hlow := hInvG.2.2 f hflt
  have hh₂ : h₂ % 2 ^ 32 = f % 2 ^ 32 := by rw [← hsl]; exact hlow
  have hf32 : f < 2 ^ 32 := by
    have hle : totalSlots (if s₂.free_list.isEmpty then grow s₂ else s₂) ≤
        totalSlots s₂ + chunk_size := by
      split
      · rw [totalSlots_grow]
      · omega
    omega
  have hfp : f = h₁ % 2 ^ 32 := by omega
  have hsl₂ : slotId s₂ (h₁ % 2 ^ 32) = h₂ := by
    have hsw : slotId (if s₂.free_list.isEmpty then grow s₂ else s₂) f =
        slotId s₂ f := by
      split
      · exact slotId_grow_old (hfp ▸ hlt₂)
      · rfl
    rw [← hfp]
    rw [← hsw]
    exact hsl
  have hne : h₁ ≠ h₂ := by
    have hcmp := hsl₂
    rw [hev] at hcmp
    omega
  have hlt₃ : h₁ % 2 ^ 32 < totalSlots s₃ := by
    rw [totalSlots_congr hto]
    split
    · rw [totalSlots_grow]; omega
    · exact hlt₂
  have hsl₃ : slotId s₃ (h₁ % 2 ^ 32) = h₂ := by
    rw [slotId_congr hto]
    have hsw : slotId (if s₂.free_list.isEmpty then grow s₂ else s₂) (h₁ % 2 ^ 32) =
        slotId s₂ (h₁ % 2 ^ 32) := by
      split
      · exact slotId_grow_old hlt₂
      · rfl
    rw [hsw, hsl₂]
  refine ⟨hne, ?_, ?_⟩
  · rw [get_object_allocated hInv₃ hlt₃, if_neg]
    rw [hsl₃]
    exact fun hh => hne hh.symm
  · have hlt₃' : h₂ % 2 ^ 32 < totalSlots s₃ := by rw [hreuse]; exact hlt₃
    rw [get_object_allocated hInv₃ hlt₃', hreuse, if_pos hsl₃]

/-- Witness for C3 (amended): destroy handle 0, reuse the slot immediately;
the new handle is `2^32` (generation 1), distinct from `0`, with `get 0`
null and `get (2^32)` live. -/
theorem C3_reuse_distinguishable_witness :
    (0 : Nat) ≠ 2 ^ 32 ∧ get_object (genState 1) 0 = .null ∧
      get_object (genState 1) (2 ^ 32) = .ref (0 % 2 ^ 32) :=
  C3_reuse_distinguishable (genState 0) 0 (midState 0) [] (midState 0) (2 ^ 32)
    (genState 1) (by decide) (by decide) rfl (by decide) (by decide) (by decide)
    (by decide)

/-- C8: the generation counter wraps.  From the empty pool, `create` returns
handle `0`; the first step of the cycle run destroys it (making it logically
stale); after `2^32` destroy/recreate cycles on slot `0` the pool state is
bit-for-bit identical to the state right after the original create, and
`get` on the stale handle `0` spuriously returns a live reference again. -/
theorem C8_generation_wraparound :
    create_object { object_table := [], free_list := [] } = some (0, genState 0) ∧
    destroy_object (genState 0) 0 = .ok (midState 0) ∧
    run (genState 0) (cyclesFrom 0 (2 ^ 32)) = some (genState (2 ^ 32)) ∧
    genState (2 ^ 32) = genState 0 ∧
    get_object (genState (2 ^ 32)) 0 = .ref 0 := by
  have hg0 : genState (2 ^ 32) = genState 0 := by simp [genState]
  refine ⟨by decide, by decide, ?_, hg0, ?_⟩
  · have hr := run_cyclesFrom (2 ^ 32) 0
    rwa [Nat.zero_add] at hr
  · rw [hg0]
    decide

/-- C9: every handle returned by `create` decodes to an index strictly
below the number of slots allocated at that point; the chunk count never
shrinks across any later completed run; and on every later state the
chunk/offset arithmetic of both `get` and `destroy` on that handle stays
within the allocated storage (neither can hit the out-of-bounds access). -/
theorem C9_handles_stay_in_bounds (s : State) (i : Nat) (s₂ : State)
    (ops : List Op) (s₃ : State)
    (hInv : Inv s)
    (hc : create_object s = some (i, s₂))
    (hrun : run s₂ ops = some s₃) :
    i % 2 ^ 32 < totalSlots s₂ ∧
    totalSlots s₂ ≤ totalSlots s₃ ∧
    get_object s₃ i ≠ .oob ∧
    destroy_object s₃ i ≠ .oob := by
  obtain ⟨f, rest, hfl, hsl, hfd, hto, hfr⟩ := create_object_some_inv hc
  have hInvG : Inv (if s.free_list.isEmpty then grow s else s) := by
    split
    · exact inv_grow hInv
    · exact hInv
  have hflt : f < totalSlots (if s.free_list.isEmpty then grow s else s) :=
    lt_totalSlots_of_div hfd
  have hlow := hInvG.2.2 f hflt
  have hi : i % 2 ^ 32 = f % 2 ^ 32 := by rw [← hsl]; exact hlow
  have h1 : i % 2 ^ 32 < totalSlots s₂ := by
    rw [totalSlots_congr hto]
    calc i % 2 ^ 32 = f % 2 ^ 32 := hi
    _ ≤ f := Nat.mod_le _ _
    _ < _ := hflt
  have hInv₃ : Inv s₃ := inv_run (inv_create hInv hc) hrun
  have h2 : totalSlots s₂ ≤ totalSlots s₃ := totalSlots_run hrun
  have h3 : i % 2 ^ 32 < totalSlots s₃ := lt_of_lt_of_le h1 h2
  refine ⟨h1, h2, ?_, ?_⟩
  · rw [get_object_allocated hInv₃ h3]
    split <;> simp
  · cases hgr : get_object s₃ i with
    | oob =>
      rw [get_object_allocated hInv₃ h3] at hgr
      split at hgr <;> exact GetResult.noConfusion hgr
    | null => simp [destroy_object, hgr]
    | ref q => simp [destroy_object, hgr]

/-- Witness for C9: the first create on the empty pool returns handle 0,
whose index 0 is within the 256 allocated slots, and get/destroy on it stay
in bounds. -/
theorem C9_handles_stay_in_bounds_witness :
    0 % 2 ^ 32 < totalSlots (genState 0) ∧
    totalSlots (genState 0) ≤ totalSlots (genState 0) ∧
    get_object (genState 0) 0 ≠ .oob ∧
    destroy_object (genState 0) 0 ≠ .oob :=
  C9_handles_stay_in_bounds { object_table := [], free_list := [] } 0 (genState 0)
    [] (genState 0) (by decide) (by decide) rfl

end SlotMapV4
